import Mathlib

/-!
Shallow embedding of the tailfs composition/caching/isolation layer
(packages `util/pathutil`, `tailfs/compositefs`, `tailfs/webdavfs`,
`tailfs` remote dispatcher) and proofs about it.

Go strings are modelled as `List Char`.  Go's `map` is modelled as an
association list whose list order stands for the (unspecified) map
iteration order; insertion adds at the tail, update keeps the position.
-/

namespace Tailfs

/-- Go strings, modelled as lists of characters. -/
abbrev GoStr := List Char

/-- `sep` from `util/pathutil/pathutil.go`: the path separator. -/
def sep : Char := '/'

/-! ## util/pathutil -/

/-- Go `strings.Trim(s, cutset)` for a single-character cutset: drop every
leading and trailing occurrence of `c`. -/
def trimChar (c : Char) (s : List Char) : List Char :=
  ((s.dropWhile (· = c)).reverse.dropWhile (· = c)).reverse

/-- Helper for `splitChar`: prepend `x` to the first piece of a split
result (used when the current character is not the separator). -/
def consHead (x : Char) : List (List Char) → List (List Char)
  | [] => [[x]]
  | r :: rs => (x :: r) :: rs

/-- Go `strings.Split(s, sep)` for a single-character, non-empty
separator: `splitChar c ""` is `[""]`, and each occurrence of `c` starts
a new piece. -/
def splitChar (c : Char) : List Char → List (List Char)
  | [] => [[]]
  | x :: xs => if x = c then [] :: splitChar c xs else consHead x (splitChar c xs)

/-- `pathutil.Split`: `strings.Split(strings.Trim(path, sepString), sepString)`. -/
def Split (path : GoStr) : List GoStr :=
  splitChar sep (trimChar sep path)

/-- `pathutil.IsRoot`: true for the empty path and the single-separator path. -/
def IsRoot (path : GoStr) : Bool :=
  path.length = 0 || (path.length = 1 && path.headD ' ' = sep)

/-- Inverse of splitting: join pieces with the separator character
(Go `strings.Join(pieces, string(c))`). -/
def joinSep (c : Char) : List (List Char) → List Char
  | [] => []
  | [r] => r
  | r :: rs => r ++ c :: joinSep c rs

theorem consHead_ne_nil (x : Char) (l : List (List Char)) : consHead x l ≠ [] := by
  cases l <;> simp [consHead]

/-- `strings.Split` never returns an empty slice. -/
theorem splitChar_ne_nil (c : Char) (s : List Char) : splitChar c s ≠ [] := by
  induction s with
  | nil => simp [splitChar]
  | cons x xs ih =>
    by_cases hx : x = c
    · simp [splitChar, hx]
    · simp [splitChar, hx, consHead_ne_nil]

theorem joinSep_consHead (c : Char) (x : Char) (l : List (List Char)) :
    joinSep c (consHead x l) = x :: joinSep c l := by
  match l with
  | [] => simp [consHead, joinSep]
  | [r] => simp [consHead, joinSep]
  | r :: r2 :: rs => simp [consHead, joinSep]

/-- Joining the pieces of `splitChar` with the separator reconstructs
the input string. -/
theorem joinSep_splitChar (c : Char) (s : List Char) :
    joinSep c (splitChar c s) = s := by
  induction s with
  | nil => simp [splitChar, joinSep]
  | cons x xs ih =>
    by_cases hx : x = c
    · subst hx
      cases h : splitChar x xs with
      | nil => exact absurd h (splitChar_ne_nil x xs)
      | cons r rs =>
        rw [h] at ih
        simp only [splitChar, if_pos rfl, h, joinSep]
        simpa [joinSep] using ih
    · simp only [splitChar, if_neg hx]
      rw [joinSep_consHead, ih]

/-- No piece produced by `splitChar` contains the separator. -/
theorem splitChar_no_sep (c : Char) (s : List Char) :
    ∀ r ∈ splitChar c s, c ∉ r := by
  induction s with
  | nil => simp [splitChar]
  | cons x xs ih =>
    intro r hr
    by_cases hx : x = c
    · rw [splitChar, if_pos hx] at hr
      rcases List.mem_cons.mp hr with h1 | h1
      · subst h1; simp
      · exact ih r h1
    · rw [splitChar, if_neg hx] at hr
      cases h : splitChar c xs with
      | nil => exact absurd h (splitChar_ne_nil c xs)
      | cons r0 rs =>
        rw [h] at hr
        simp only [consHead] at hr
        rcases List.mem_cons.mp hr with h1 | h1
        · subst h1
          intro hmem
          rcases List.mem_cons.mp hmem with h2 | h2
          · exact hx h2.symm
          · exact ih r0 (h ▸ List.mem_cons_self _ _) h2
        · exact ih r (h ▸ List.mem_cons_of_mem _ h1)

/-- `Split` never returns an empty sequence. -/
theorem Split_ne_nil (p : GoStr) : Split p ≠ [] :=
  splitChar_ne_nil sep (trimChar sep p)

/-! ## Error values

Go `error` values used by this layer.  No constructor carries another
`Err`, mirroring that none of the errors built here wraps a cause
(`fmt.Errorf` is used with `%v`, not `%w`). -/

inductive Err where
  /-- `os.ErrNotExist`. -/
  | notExist
  /-- `os.PathError{Op, Path, Err: errors.New(msg)}`. -/
  | pathError (op : String) (path : GoStr) (msg : String)
  /-- `gowebdav.StatusError` with the given HTTP status. -/
  | statusError (status : Nat)
  /-- `fmt.Errorf("unexpected WebDAV error: %v", err)`: carries only the
  formatted text of the cause, never the cause itself. -/
  | unexpectedWebDAV (msg : String)
  /-- any other opaque error (e.g. one returned by a backing client). -/
  | errorString (msg : String)
deriving DecidableEq, Repr

/-- Go `err.Error()` / `%v` rendering, as far as this model needs it. -/
def errMsg : Err → String
  | .notExist => "file does not exist"
  | .pathError op _ msg => op ++ ": " ++ msg
  | .statusError s => toString s
  | .unexpectedWebDAV m => "unexpected WebDAV error: " ++ m
  | .errorString m => m

/-! ## tailfs/shared file info -/

/-- The slice of `fs.FileInfo` this layer observes: a name, a directory
flag and a size (`shared.StaticFileInfo` fields used by the claims). -/
structure FileInfoM where
  name : GoStr
  isDir : Bool
  size : Int := 0
deriving DecidableEq, Repr

/-- `shared.ReadOnlyDirInfo(name)`: a read-only directory entry for `name`. -/
def ReadOnlyDirInfo (name : GoStr) : FileInfoM :=
  { name := name, isDir := true, size := 0 }

/-! ## Go map model

Association list; the list order models Go's (unspecified) map
iteration order.  Insertion of a fresh key appends, update keeps the
key's position.  Any fixed choice here is one admissible behavior of a
Go map, whose iteration order is deliberately not sorted. -/

def mapUpsert {α : Type} (k : GoStr) (v : α) : List (GoStr × α) → List (GoStr × α)
  | [] => [(k, v)]
  | (k0, v0) :: rest =>
      if k0 = k then (k, v) :: rest else (k0, v0) :: mapUpsert k v rest

def mapDelete {α : Type} (k : GoStr) (m : List (GoStr × α)) : List (GoStr × α) :=
  m.filter (fun kv => kv.1 ≠ k)

def mapLookup {α : Type} (k : GoStr) : List (GoStr × α) → Option α
  | [] => Option.none
  | (k0, v0) :: rest => if k0 = k then some v0 else mapLookup k rest

/-! ## tailfs/compositefs -/

/-- `child`: a named child filesystem.  The backing filesystem is an
abstract value of type `F`. -/
structure ChildE (F : Type) where
  name : GoStr
  fs : F
deriving DecidableEq, Repr

/-- Go string comparison `a < b` (lexicographic). -/
def goStrLt : GoStr → GoStr → Bool
  | [], [] => false
  | [], _ :: _ => true
  | _ :: _, [] => false
  | a :: as, b :: bs => if a < b then true else if b < a then false else goStrLt as bs

/-- Insertion step of `sort.Sort(childrenByName)` (`Less` compares names). -/
def insertByName {F : Type} (c : ChildE F) : List (ChildE F) → List (ChildE F)
  | [] => [c]
  | d :: ds => if goStrLt c.name d.name then c :: d :: ds else d :: insertByName c ds

/-- `sort.Sort(childrenByName)`: sort the slice by child name. -/
def sortByName {F : Type} : List (ChildE F) → List (ChildE F)
  | [] => []
  | c :: cs => insertByName c (sortByName cs)

/-- `compositeFileSystem`: the `children` slice and the `childrenMap`. -/
structure CFS (F : Type) where
  children : List (ChildE F)
  childrenMap : List (GoStr × ChildE F)
deriving DecidableEq, Repr

/-- `rebuildChildren`: rebuilds the `children` slice from the map in map
iteration order.  As in the source, it does NOT sort the result. -/
def rebuildChildren {F : Type} (cfs : CFS F) : CFS F :=
  { cfs with children := cfs.childrenMap.map Prod.snd }

/-- `New(logf, children...)`: initial state; sorts the initial slice and
fills the map. -/
def newCFS {F : Type} (children : List (ChildE F)) : CFS F :=
  { children := sortByName children,
    childrenMap := children.map (fun c => (c.name, c)) }

/-- `AddChild(name, fs)`: put into the map, then `rebuildChildren`. -/
def AddChild {F : Type} (cfs : CFS F) (name : GoStr) (fs : F) : CFS F :=
  rebuildChildren
    { cfs with childrenMap := mapUpsert name ⟨name, fs⟩ cfs.childrenMap }

/-- `RemoveChild(name)`: delete from the map, then `rebuildChildren`. -/
def RemoveChild {F : Type} (cfs : CFS F) (name : GoStr) : CFS F :=
  rebuildChildren { cfs with childrenMap := mapDelete name cfs.childrenMap }

/-- `SetChildren(map)`: replace the map wholesale, then `rebuildChildren`.
The argument list models the Go map argument in iteration order. -/
def SetChildren {F : Type} (cfs : CFS F) (children : List (GoStr × F)) : CFS F :=
  rebuildChildren
    { cfs with childrenMap := children.map (fun nf => (nf.1, ⟨nf.1, nf.2⟩)) }

/-- The composite root's `LoadChildren` callback: one `ReadOnlyDirInfo`
per element of the `children` slice, in slice order. -/
def rootLoadChildren {F : Type} (cfs : CFS F) : List FileInfoM :=
  cfs.children.map (fun c => ReadOnlyDirInfo c.name)

/-- Go `path.Join` restricted to this use: drops empty components and
joins the rest with the separator.  `path.Clean`'s dot-segment
normalization is not modelled; no claim depends on the joined remainder. -/
def goPathJoin (elems : List GoStr) : GoStr :=
  joinSep sep (elems.filter (fun e => !e.isEmpty))

/-- The four results of `pathToChild`. -/
structure PTC (F : Type) where
  path : GoStr
  onChild : Bool
  child : Option (ChildE F)
  err : Option Err
deriving DecidableEq, Repr

/-- `pathToChild(name)`.  `Option.none` models the index-out-of-range
panic that `pathComponents[0]` would raise on an empty split (shown
unreachable by `Split_ne_nil`). -/
def pathToChild {F : Type} (cfs : CFS F) (name : GoStr) : Option (PTC F) :=
  match Split name with
  | [] => Option.none
  | p0 :: rest =>
    match mapLookup p0 cfs.childrenMap with
    | Option.none => some ⟨name, false, Option.none, some Err.notExist⟩
    | some child =>
      match rest with
      | [] => some ⟨name, false, some child, Option.none⟩
      | _ :: _ => some ⟨goPathJoin rest, true, some child, Option.none⟩

/-- Result of `compositeFileSystem.OpenFile`. -/
inductive COpen (F : Type) where
  /-- the synthetic root directory, with its `LoadChildren` listing. -/
  | rootDir (listing : List FileInfoM)
  /-- delegated to the named child's `OpenFile` at the given path. -/
  | childOpen (child : GoStr) (path : GoStr)
  /-- returned an error without touching any child. -/
  | failure (e : Err)
deriving DecidableEq, Repr

/-- `compositeFileSystem.OpenFile` (flag and perm are passed through and
do not influence the routing, so they are omitted). -/
def cfsOpenFile {F : Type} (cfs : CFS F) (name : GoStr) : Option (COpen F) :=
  if IsRoot name then some (COpen.rootDir (rootLoadChildren cfs))
  else
    match pathToChild cfs name with
    | Option.none => Option.none
    | some r =>
      match r.err with
      | some e => some (COpen.failure e)
      | Option.none =>
        if !r.onChild then
          match r.child with
          | some c => some (COpen.childOpen c.name [sep])
          | Option.none => Option.none
        else
          match r.child with
          | some c => some (COpen.childOpen c.name r.path)
          | Option.none => Option.none

/-- Result of `compositeFileSystem.Mkdir`. -/
inductive CMkdir where
  /-- returned `nil` without invoking any child operation. -/
  | ok
  /-- delegated to the named child's `Mkdir` at the given path. -/
  | childMkdir (child : GoStr) (path : GoStr)
  /-- returned an error. -/
  | failure (e : Err)
deriving DecidableEq, Repr

/-- `compositeFileSystem.Mkdir`.  As in the source, `!onChild` is
checked BEFORE the error, so the error branch is only reached when
`onChild` is true. -/
def cfsMkdir {F : Type} (cfs : CFS F) (name : GoStr) : Option CMkdir :=
  if IsRoot name then some CMkdir.ok
  else
    match pathToChild cfs name with
    | Option.none => Option.none
    | some r =>
      if !r.onChild then some CMkdir.ok
      else
        match r.err with
        | some e => some (CMkdir.failure e)
        | Option.none =>
          match r.child with
          | some c => some (CMkdir.childMkdir c.name r.path)
          | Option.none => Option.none

/-! ## tailfs/webdavfs -/

/-- `translateWebDAVError` on a non-nil error: `errors.As` finds a
`gowebdav.StatusError` exactly when the error is one (no error built in
this layer wraps another), and status 404 becomes `os.ErrNotExist`;
everything else becomes the opaque formatted message. -/
def translateErr (e : Err) : Err :=
  match e with
  | Err.statusError s =>
      if s = 404 then Err.notExist else Err.unexpectedWebDAV (errMsg e)
  | _ => Err.unexpectedWebDAV (errMsg e)

/-- `translateWebDAVError`: `nil` stays `nil`. -/
def translateWebDAVError : Option Err → Option Err
  | Option.none => Option.none
  | some e => some (translateErr e)

/-- A cached value: file metadata (from `GetOrFetch`) or a directory
listing (from `Set`). -/
inductive CacheVal where
  | meta (fi : FileInfoM)
  | listing (fis : List FileInfoM)
deriving DecidableEq, Repr

/-- Modelled from the spec: `statCache` (`newStatCache`, `getOrFetch`,
`set`, `invalidate`, `stop`) is referenced by `webdavfs.go` but its
implementation file is not under src/.  Spec §4.2: a map path →
`{Value, ExpiresAt}` with a TTL fixed at construction. -/
structure StatCache where
  ttl : Nat
  entries : List (GoStr × Nat × CacheVal)
deriving DecidableEq, Repr

/-- Modelled from the spec: `Invalidate()` clears all entries. -/
def cacheInvalidate (c : StatCache) : StatCache :=
  { c with entries := [] }

/-- Modelled from the spec: `Set(path, value)` stores unconditionally
with a fresh expiry. -/
def cacheSet (now : Nat) (name : GoStr) (v : CacheVal) (c : StatCache) : StatCache :=
  { c with entries := mapUpsert name (now + c.ttl, v) c.entries }

/-- Modelled from the spec: an entry older than its TTL is treated as
absent. -/
def cacheGet (now : Nat) (name : GoStr) (c : StatCache) : Option CacheVal :=
  match mapLookup name c.entries with
  | some (exp, v) => if now < exp then some v else Option.none
  | Option.none => Option.none

/-- Modelled from the spec: `GetOrFetch(path, fetchFn)` returns cached
metadata if present and unexpired; otherwise invokes the fetch and on
success stores the result.  The boolean records whether the fetch
(remote call) was invoked. -/
def getOrFetch (now : Nat) (name : GoStr) (fetch : Except Err FileInfoM)
    (c : StatCache) : Except Err FileInfoM × StatCache × Bool :=
  match cacheGet now name c with
  | some (CacheVal.meta fi) => (Except.ok fi, c, false)
  | _ =>
    match fetch with
    | Except.ok fi => (Except.ok fi, cacheSet now name (CacheVal.meta fi) c, true)
    | Except.error e => (Except.error e, c, true)

/-- `webdavFS`: the adapter's own state is its optional stat cache; the
backing `gowebdav.Client` is modelled by passing each remote call's
result as an oracle argument. -/
structure WFS where
  statCache : Option StatCache
deriving DecidableEq, Repr

/-- Observable events of one adapter operation, in order. -/
inductive Ev where
  | cacheInvalidated
  | remoteCall (op : String)
deriving DecidableEq, Repr

/-- The `if wfs.statCache != nil { wfs.statCache.invalidate() }` prologue. -/
def invalidateStep (wfs : WFS) : WFS × List Ev :=
  match wfs.statCache with
  | some c => (⟨some (cacheInvalidate c)⟩, [Ev.cacheInvalidated])
  | Option.none => (wfs, [])

/-- `webdavFS.Mkdir`: invalidate the cache, call the client, translate
the client's error. -/
def wfsMkdir (wfs : WFS) (clientErr : Option Err) : Option Err × WFS × List Ev :=
  let s := invalidateStep wfs
  (translateWebDAVError clientErr, s.1, s.2 ++ [Ev.remoteCall "Mkdir"])

/-- `webdavFS.RemoveAll`: invalidate the cache, then return the client's
error unchanged (the source does not pass it through
`translateWebDAVError`). -/
def wfsRemoveAll (wfs : WFS) (clientErr : Option Err) : Option Err × WFS × List Ev :=
  let s := invalidateStep wfs
  (clientErr, s.1, s.2 ++ [Ev.remoteCall "RemoveAll"])

/-- `webdavFS.Rename`: invalidate the cache, then return the client's
error unchanged (no `translateWebDAVError` in the source). -/
def wfsRename (wfs : WFS) (clientErr : Option Err) : Option Err × WFS × List Ev :=
  let s := invalidateStep wfs
  (clientErr, s.1, s.2 ++ [Ev.remoteCall "Rename"])

/-- `webdavFS.doStat`: client `Stat` with error translation. -/
def wfsDoStat (clientStat : Except Err FileInfoM) : Except Err FileInfoM :=
  match clientStat with
  | Except.ok fi => Except.ok fi
  | Except.error e => Except.error (translateErr e)

/-- `webdavFS.Stat`: through the cache when one is configured.  The
boolean records whether a remote fetch was performed. -/
def wfsStat (wfs : WFS) (now : Nat) (name : GoStr)
    (clientStat : Except Err FileInfoM) : Except Err FileInfoM × WFS × Bool :=
  match wfs.statCache with
  | some c =>
      let r := getOrFetch now name (wfsDoStat clientStat) c
      (r.1, ⟨some r.2.1⟩, r.2.2)
  | Option.none => (wfsDoStat clientStat, wfs, true)

/-- The open flags `OpenFile` inspects (`hasFlag` on `O_APPEND`,
`O_WRONLY`, `O_RDWR`). -/
structure Flags where
  append : Bool
  wronly : Bool
  rdwr : Bool
deriving DecidableEq, Repr

/-- `writeOnlyFile`: its name and the background upload task's stored
terminal error (`writeError atomic.Value`), if stored. -/
structure WriteOnlyFile where
  name : GoStr
  perm : Nat := 0
  writeError : Option Err
deriving DecidableEq, Repr

/-- The background upload goroutine's `f.writeError.Store(writeErr)`. -/
def storeWriteError (f : WriteOnlyFile) (e : Err) : WriteOnlyFile :=
  { f with writeError := some e }

/-- A handle returned by `webdavFS.OpenFile`. -/
inductive WHandle where
  | writeOnly (f : WriteOnlyFile)
  /-- `dirWithChildren(name, fi)`: a lazily-loaded directory handle. -/
  | dir (name : GoStr) (fi : FileInfoM)
  | readOnly (fi : FileInfoM)
deriving DecidableEq, Repr

/-- `webdavFS.OpenFile`.  `clientStat` and `clientRead` are the results
of `Client.Stat` and `Client.ReadStream`. -/
def wfsOpenFile (wfs : WFS) (name : GoStr) (flag : Flags)
    (clientStat : Except Err FileInfoM) (clientRead : Option Err) :
    Except Err WHandle × WFS × List Ev :=
  if flag.append then
    (Except.error (Err.pathError "open" name "mode APPEND not supported"), wfs, [])
  else if flag.wronly || flag.rdwr then
    let s := invalidateStep wfs
    let evs := s.2 ++ [Ev.remoteCall "Stat"]
    match clientStat with
    | Except.error e =>
        let e2 := translateErr e
        if e2 ≠ Err.notExist then (Except.error e2, s.1, evs)
        else (Except.ok (WHandle.writeOnly ⟨name, 0, Option.none⟩), s.1, evs)
    | Except.ok fi =>
        if fi.isDir then
          (Except.error (Err.pathError "open" name "is a directory"), s.1, evs)
        else (Except.ok (WHandle.writeOnly ⟨name, 0, Option.none⟩), s.1, evs)
  else
    match clientStat with
    | Except.error e => (Except.error (translateErr e), wfs, [Ev.remoteCall "Stat"])
    | Except.ok fi =>
      if fi.isDir then (Except.ok (WHandle.dir name fi), wfs, [Ev.remoteCall "Stat"])
      else
        match clientRead with
        | some e =>
            (Except.error (translateErr e), wfs,
              [Ev.remoteCall "Stat", Ev.remoteCall "ReadStream"])
        | Option.none =>
            (Except.ok (WHandle.readOnly fi), wfs,
              [Ev.remoteCall "Stat", Ev.remoteCall "ReadStream"])

/-- `dirWithChildren`'s `LoadChildren` callback: on a failed remote
`ReadDir` (which yields a nil slice) it logs and returns the empty
listing with a nil error; on success it stores the listing in the stat
cache (when one is configured) and returns it. -/
def loadChildren (wfs : WFS) (now : Nat) (name : GoStr)
    (clientReadDir : Except Err (List FileInfoM)) :
    (List FileInfoM × Option Err) × WFS :=
  match clientReadDir with
  | Except.error _ => (([], Option.none), wfs)
  | Except.ok dirInfos =>
      match wfs.statCache with
      | some c =>
          ((dirInfos, Option.none),
            ⟨some (cacheSet now name (CacheVal.listing dirInfos) c)⟩)
      | Option.none => ((dirInfos, Option.none), wfs)

/-- `writeOnlyFile.Read`: always fails (note the source's `Op` field
says "write" while the message says "write-only"). -/
def wofRead (f : WriteOnlyFile) : Except Err Nat :=
  Except.error (Err.pathError "write" f.name "write-only")

/-- `writeOnlyFile.Seek`: always fails. -/
def wofSeek (f : WriteOnlyFile) : Except Err Int :=
  Except.error (Err.pathError "seek" f.name "seek not supported")

/-- `writeOnlyFile.Write`: a stored upload error is returned first;
otherwise the pipe write's own result (`n` bytes or `pipeErr`). -/
def wofWrite (f : WriteOnlyFile) (n : Nat) (pipeErr : Option Err) : Except Err Nat :=
  match f.writeError with
  | some e => Except.error e
  | Option.none =>
    match pipeErr with
    | some e => Except.error e
    | Option.none => Except.ok n

/-- `writeOnlyFile.Close`: a stored upload error is returned first;
otherwise the pipe close's result. -/
def wofClose (f : WriteOnlyFile) (pipeCloseErr : Option Err) : Option Err :=
  match f.writeError with
  | some e => some e
  | Option.none => pipeCloseErr

/-! ## tailfs/remote.go -/

/-- `Share`: name, local path and the local account (`As`) it is served
as.  The reader/writer principal lists play no role in the claims. -/
structure ShareE where
  name : GoStr
  path : GoStr
  As : GoStr
deriving DecidableEq, Repr

/-- Modelled from the spec: the `Permissions` lookup is an external
collaborator (`For(shareName) -> {None, ReadOnly, ReadWrite}`); its
implementation is not under src/. -/
inductive Perm where
  | none
  | readOnly
  | readWrite
deriving DecidableEq, Repr

/-- `writeMethods`: the fixed write-class method set. -/
def writeMethods : List String :=
  ["PUT", "POST", "COPY", "LOCK", "UNLOCK", "MKCOL", "MOVE", "PROPPATCH"]

/-- Outcome of `fileSystemForRemote.ServeHTTP`. -/
inductive ServeOutcome where
  /-- `http.Error(w, "not found", http.StatusNotFound)` before anything
  is built. -/
  | notFound
  /-- `http.Error(w, "permission denied", http.StatusForbidden)` before
  anything is built. -/
  | forbidden
  /-- fell through the gate: an ephemeral composite was built over the
  named children and the request forwarded to the WebDAV handler. -/
  | dispatched (childNames : List GoStr)
deriving DecidableEq, Repr

/-- The share set the dispatcher assembles after the gate: every share
whose permission is not `None` and whose serving address resolves
(`addrFor` models the `AllowShareAs`/user-server/file-server address
resolution, which depends on platform state outside src/). -/
def buildChildNames (permFor : GoStr → Perm) (addrFor : GoStr → Option GoStr)
    (shares : List ShareE) : List GoStr :=
  (shares.filter
    (fun sh => decide (permFor sh.name ≠ Perm.none) && (addrFor sh.As).isSome)).map
    (fun sh => sh.name)

/-- `fileSystemForRemote.ServeHTTP`: the write-class permission gate,
then the composite build.  `Option.none` models the panic of
`pathutil.Split(r.URL.Path)[0]` on an empty split (unreachable by
`Split_ne_nil`). -/
def serveHTTP (permFor : GoStr → Perm) (addrFor : GoStr → Option GoStr)
    (shares : List ShareE) (method : String) (urlPath : GoStr) :
    Option ServeOutcome :=
  let proceed := some (ServeOutcome.dispatched (buildChildNames permFor addrFor shares))
  if writeMethods.contains method then
    match Split urlPath with
    | [] => Option.none
    | share :: _ =>
      match permFor share with
      | Perm.none => some ServeOutcome.notFound
      | Perm.readOnly => some ServeOutcome.forbidden
      | Perm.readWrite => proceed
  else proceed

/-- One iteration of `SetShares`'s grouping loop: look the share's `As`
identity up; create a fresh record on a miss, append to the existing
record on a hit. -/
def setSharesStep (acc : List (GoStr × List ShareE)) (share : ShareE) :
    List (GoStr × List ShareE) :=
  match mapLookup share.As acc with
  | Option.none => acc ++ [(share.As, [share])]
  | some existing => mapUpsert share.As (existing ++ [share]) acc

/-- `SetShares` (the `AllowShareAs` branch): group the applied shares by
their `As` identity into per-identity user-server records; a record is
created on first sight of an identity and each share is appended to its
identity's record. -/
def setSharesGroup (shares : List ShareE) : List (GoStr × List ShareE) :=
  shares.foldl setSharesStep []

/-- `userServer.run`: the sudo-escalated argv.  `Option.none` models the
panic of `s.shares[0]` on an empty share list. -/
def runArgs (executable : GoStr) (shares : List ShareE) :
    Option (GoStr × List GoStr) :=
  match shares with
  | [] => Option.none
  | s0 :: _ =>
      let args :=
        "serve-tailfs".toList ::
          shares.foldr (fun s acc => s.name :: s.path :: acc) []
      some ("sudo".toList, ["-u".toList, s0.As, executable] ++ args)

/-! ## Supporting lemmas -/

theorem trimChar_all_eq (c : Char) (p : List Char) (h : ∀ x ∈ p, x = c) :
    trimChar c p = [] := by
  have h1 : p.dropWhile (· = c) = [] := by
    induction p with
    | nil => rfl
    | cons x xs ih =>
      have hx : x = c := h x (List.mem_cons_self _ _)
      rw [List.dropWhile_cons_of_pos (by simpa using hx)]
      exact ih (fun y hy => h y (List.mem_cons_of_mem _ hy))
  simp [trimChar, h1]

theorem mapUpsert_mem {α : Type} (k : GoStr) (v : α) (m : List (GoStr × α)) :
    ∀ x ∈ mapUpsert k v m, x = (k, v) ∨ x ∈ m := by
  induction m with
  | nil =>
    intro x hx
    simp only [mapUpsert] at hx
    exact Or.inl (by simpa using hx)
  | cons kv rest ih =>
    intro x hx
    obtain ⟨k0, v0⟩ := kv
    by_cases h : k0 = k
    · rw [mapUpsert, if_pos h] at hx
      rcases List.mem_cons.mp hx with h1 | h1
      · exact Or.inl h1
      · exact Or.inr (List.mem_cons_of_mem _ h1)
    · rw [mapUpsert, if_neg h] at hx
      rcases List.mem_cons.mp hx with h1 | h1
      · exact Or.inr (h1 ▸ List.mem_cons_self _ _)
      · rcases ih x h1 with h2 | h2
        · exact Or.inl h2
        · exact Or.inr (List.mem_cons_of_mem _ h2)

theorem setSharesStep_nonempty (acc : List (GoStr × List ShareE)) (share : ShareE)
    (hacc : ∀ x ∈ acc, x.2 ≠ []) :
    ∀ x ∈ setSharesStep acc share, x.2 ≠ [] := by
  intro x hx
  unfold setSharesStep at hx
  cases h : mapLookup share.As acc with
  | none =>
    rw [h] at hx
    rcases List.mem_append.mp hx with h1 | h1
    · exact hacc x h1
    · have : x = (share.As, [share]) := by simpa using h1
      subst this
      simp
  | some existing =>
    rw [h] at hx
    rcases mapUpsert_mem _ _ _ x hx with h1 | h1
    · subst h1; simp
    · exact hacc x h1

theorem setSharesGroup_aux (shares : List ShareE) (acc : List (GoStr × List ShareE))
    (hacc : ∀ x ∈ acc, x.2 ≠ []) :
    ∀ x ∈ shares.foldl setSharesStep acc, x.2 ≠ [] := by
  induction shares generalizing acc with
  | nil => simpa using hacc
  | cons s rest ih =>
    intro x hx
    exact ih _ (setSharesStep_nonempty acc s hacc) x hx

/-! ## Claims -/

/-- C1: the claim says listing the composite root always yields exactly
one entry per child in strict lexicographic name order, independent of
insertion order.  The code's own doc comments (`childrenByName is a
slice of *child sorted in name order`, `children sorted alphabetically
by name`) and `New` (which sorts) promise this, but `rebuildChildren`
omits the sort, so after `AddChild("b")` then `AddChild("a")` the root
listing is in map iteration order `[b, a]`, not `[a, b]`: the code
contradicts its own documentation. -/
theorem C1_root_listing_unsorted :
    rootLoadChildren
        (AddChild (AddChild (newCFS ([] : List (ChildE Unit))) ['b'] ()) ['a'] ()) =
      [ReadOnlyDirInfo ['b'], ReadOnlyDirInfo ['a']] ∧
    goStrLt ['b'] ['a'] = false ∧
    rootLoadChildren (newCFS [(⟨['b'], ()⟩ : ChildE Unit), ⟨['a'], ()⟩]) =
      [ReadOnlyDirInfo ['a'], ReadOnlyDirInfo ['b']] := by decide

/-- C2: the claim says `Mkdir` on the bare name of an unknown child
returns not-found and on an existing child's bare name returns success
without touching the child.  In the source, `Mkdir` tests `!onChild`
before the error from `pathToChild`, so the not-found error for the
unknown child `"u"` is swallowed and `Mkdir("/u")` returns success; the
error branch is unreachable, contradicting `pathToChild`'s documented
not-exist contract. -/
theorem C2_mkdir_swallows_notfound :
    pathToChild (AddChild (newCFS ([] : List (ChildE Unit))) ['c'] ()) ['/', 'u'] =
      some ⟨['/', 'u'], false, Option.none, some Err.notExist⟩ ∧
    cfsMkdir (AddChild (newCFS ([] : List (ChildE Unit))) ['c'] ()) ['/', 'u'] =
      some CMkdir.ok ∧
    cfsMkdir (AddChild (newCFS ([] : List (ChildE Unit))) ['c'] ()) ['/', 'c'] =
      some CMkdir.ok := by decide

/-- C3: for a write-class method, a caller whose permission on the first
path segment's share is `None` gets a 404 not-found response, and one
with `ReadOnly` gets a 403 forbidden response; both responses are
emitted before any filesystem is built or any filesystem operation
performed. -/
theorem C3_write_gate (permFor : GoStr → Perm) (addrFor : GoStr → Option GoStr)
    (shares : List ShareE) (method : String) (urlPath : GoStr)
    (share0 : GoStr) (rest : List GoStr)
    (hw : writeMethods.contains method = true)
    (hs : Split urlPath = share0 :: rest) :
    (permFor share0 = Perm.none →
      serveHTTP permFor addrFor shares method urlPath = some ServeOutcome.notFound) ∧
    (permFor share0 = Perm.readOnly →
      serveHTTP permFor addrFor shares method urlPath = some ServeOutcome.forbidden) := by
  have hm : method ∈ writeMethods := by simpa using hw
  constructor <;> intro hp <;> simp [serveHTTP, hm, hs, hp]

theorem C3_write_gate_witness :
    serveHTTP (fun _ => Perm.none) (fun _ => Option.none) [] "PUT" ['/', 's'] =
      some ServeOutcome.notFound :=
  (C3_write_gate (fun _ => Perm.none) (fun _ => Option.none) [] "PUT" ['/', 's']
    ['s'] [] (by decide) (by decide)).1 rfl

/-- C4 counterexample: the claim says the empty path and the root path
yield an empty sequence of segments, but `Split` (via Go
`strings.Split`) yields the singleton sequence containing the empty
segment. -/
theorem C4_empty_split_cex :
    Split [] = [[]] ∧ Split [] ≠ [] ∧ Split [sep] = [[]] ∧ Split [sep] ≠ [] := by
  decide

/-- C4 (amended): `Split` returns the slash-separated segments of the
path with leading and trailing separators trimmed (joining the segments
with the separator reconstructs the trimmed path, and no segment
contains a separator); the empty path and the root path yield the
singleton sequence containing the empty segment, never an empty
sequence. -/
theorem C4_Split_amended (p : GoStr) :
    joinSep sep (Split p) = trimChar sep p ∧
    (∀ r ∈ Split p, sep ∉ r) ∧
    Split p ≠ [] ∧
    Split [] = [[]] ∧ Split [sep] = [[]] :=
  ⟨joinSep_splitChar sep (trimChar sep p), splitChar_no_sep sep (trimChar sep p),
    Split_ne_nil p, by decide, by decide⟩

theorem C4_Split_amended_witness : sep ∉ (['a'] : GoStr) :=
  (C4_Split_amended ['/', 'a', '/']).2.1 ['a'] (by decide)

/-- C5 counterexample: the claim says every adapter operation translates
a not-found remote status into the generic not-exist error, but
`RemoveAll` and `Rename` return the client's error untranslated: a 404
status error surfaces as itself, not as not-exist. -/
theorem C5_untranslated_cex :
    (wfsRemoveAll ⟨Option.none⟩ (some (Err.statusError 404))).1 =
      some (Err.statusError 404) ∧
    (wfsRemoveAll ⟨Option.none⟩ (some (Err.statusError 404))).1 ≠
      some Err.notExist ∧
    (wfsRename ⟨Option.none⟩ (some (Err.statusError 404))).1 =
      some (Err.statusError 404) := by decide

/-- C5 (amended): `Stat`, `OpenFile` and `Mkdir` surface remote errors
through `translateWebDAVError` — a not-found status becomes the generic
not-exist error and every other error becomes the opaque
"unexpected WebDAV error" carrying only the formatted message — while
`RemoveAll` and `Rename` return the remote client's error unchanged,
with no translation. -/
theorem C5_translate_amended (wfs : WFS) (e : Err) (eo : Option Err)
    (name : GoStr) (rd : Option Err) :
    (wfsMkdir wfs eo).1 = translateWebDAVError eo ∧
    (wfsRemoveAll wfs eo).1 = eo ∧
    (wfsRename wfs eo).1 = eo ∧
    wfsDoStat (Except.error e) = Except.error (translateErr e) ∧
    (wfsOpenFile wfs name ⟨false, false, false⟩ (Except.error e) rd).1 =
      Except.error (translateErr e) ∧
    (translateErr e = Err.notExist ↔ e = Err.statusError 404) := by
  refine ⟨rfl, rfl, rfl, rfl, rfl, ?_⟩
  cases e with
  | statusError s =>
    by_cases h4 : s = 404
    · subst h4; simp [translateErr]
    · simp [translateErr, h4]
  | notExist => simp [translateErr]
  | pathError op p m => simp [translateErr]
  | unexpectedWebDAV m => simp [translateErr]
  | errorString m => simp [translateErr]

theorem C5_translate_amended_witness :
    (wfsRemoveAll ⟨Option.none⟩ (some (Err.statusError 500))).1 =
      some (Err.statusError 500) :=
  (C5_translate_amended ⟨Option.none⟩ (Err.statusError 500)
    (some (Err.statusError 500)) ['f'] Option.none).2.1

/-- C6: on a cached adapter, `Mkdir`, `RemoveAll`, `Rename` and a
non-append write-mode `OpenFile` each clear the whole stat cache, with
the invalidation event strictly before the remote call event, and a
`Stat` on the resulting state performs a fresh remote fetch for every
path. -/
theorem C6_cache_invalidation (wfs : WFS) (c : StatCache)
    (hc : wfs.statCache = some c) (eM eR eN rd : Option Err)
    (name p : GoStr) (flag : Flags) (happ : flag.append = false)
    (hw : (flag.wronly || flag.rdwr) = true)
    (st fetch : Except Err FileInfoM) (now : Nat) :
    (wfsMkdir wfs eM).2.1 = ⟨some (cacheInvalidate c)⟩ ∧
    (wfsMkdir wfs eM).2.2 = [Ev.cacheInvalidated, Ev.remoteCall "Mkdir"] ∧
    (wfsRemoveAll wfs eR).2.1 = ⟨some (cacheInvalidate c)⟩ ∧
    (wfsRemoveAll wfs eR).2.2 = [Ev.cacheInvalidated, Ev.remoteCall "RemoveAll"] ∧
    (wfsRename wfs eN).2.1 = ⟨some (cacheInvalidate c)⟩ ∧
    (wfsRename wfs eN).2.2 = [Ev.cacheInvalidated, Ev.remoteCall "Rename"] ∧
    (wfsOpenFile wfs name flag st rd).2.1 = ⟨some (cacheInvalidate c)⟩ ∧
    (wfsOpenFile wfs name flag st rd).2.2 =
      [Ev.cacheInvalidated, Ev.remoteCall "Stat"] ∧
    (wfsStat ⟨some (cacheInvalidate c)⟩ now p fetch).2.2 = true := by
  have hstate : invalidateStep wfs = (⟨some (cacheInvalidate c)⟩, [Ev.cacheInvalidated]) := by
    simp [invalidateStep, hc]
  refine ⟨?_, ?_, ?_, ?_, ?_, ?_, ?_, ?_, ?_⟩
  · simp [wfsMkdir, hstate]
  · simp [wfsMkdir, hstate]
  · simp [wfsRemoveAll, hstate]
  · simp [wfsRemoveAll, hstate]
  · simp [wfsRename, hstate]
  · simp [wfsRename, hstate]
  · cases st with
    | error e =>
      by_cases h : translateErr e ≠ Err.notExist <;>
        simp [wfsOpenFile, happ, hw, hstate, h]
    | ok fi =>
      by_cases h : fi.isDir = true <;> simp [wfsOpenFile, happ, hw, hstate, h]
  · cases st with
    | error e =>
      by_cases h : translateErr e ≠ Err.notExist <;>
        simp [wfsOpenFile, happ, hw, hstate, h]
    | ok fi =>
      by_cases h : fi.isDir = true <;> simp [wfsOpenFile, happ, hw, hstate, h]
  · cases fetch <;>
      simp [wfsStat, getOrFetch, cacheGet, cacheInvalidate, mapLookup, wfsDoStat]

theorem C6_cache_invalidation_witness :
    (wfsMkdir ⟨some ⟨5, [(['p'], 7, CacheVal.meta ⟨['p'], false, 0⟩)]⟩⟩ Option.none).2.2 =
      [Ev.cacheInvalidated, Ev.remoteCall "Mkdir"] :=
  (C6_cache_invalidation
    ⟨some ⟨5, [(['p'], 7, CacheVal.meta ⟨['p'], false, 0⟩)]⟩⟩
    ⟨5, [(['p'], 7, CacheVal.meta ⟨['p'], false, 0⟩)]⟩ rfl
    Option.none Option.none Option.none Option.none ['q'] ['q']
    ⟨false, true, false⟩ rfl rfl (Except.ok ⟨['q'], false, 0⟩)
    (Except.ok ⟨['q'], false, 0⟩) 0).2.1

/-- C7: on a write-mode handle, `Read` and `Seek` always fail with the
unsupported-operation path errors; once the background upload task has
stored a terminal error, `Write` and `Close` both return exactly that
error, so an upload failure recorded before `Close` is returned by
`Close`. -/
theorem C7_writeOnlyFile (f g : WriteOnlyFile) (e : Err)
    (he : f.writeError = some e) (n : Nat) (pe pc pc2 : Option Err) :
    wofRead f = Except.error (Err.pathError "write" f.name "write-only") ∧
    wofSeek f = Except.error (Err.pathError "seek" f.name "seek not supported") ∧
    wofWrite f n pe = Except.error e ∧
    wofClose f pc = some e ∧
    wofClose (storeWriteError g e) pc2 = some e := by
  refine ⟨rfl, rfl, ?_, ?_, ?_⟩ <;> simp [wofWrite, wofClose, storeWriteError, he]

theorem C7_writeOnlyFile_witness :
    wofClose ⟨['f'], 0, some (Err.errorString "upload failed")⟩ Option.none =
      some (Err.errorString "upload failed") :=
  (C7_writeOnlyFile ⟨['f'], 0, some (Err.errorString "upload failed")⟩
    ⟨['f'], 0, Option.none⟩ (Err.errorString "upload failed") rfl 3
    Option.none Option.none Option.none).2.2.2.1

/-- C8: the lazily-loaded directory handle's child-listing callback
returns the empty listing and no error when the remote directory read
fails (leaving the cache untouched), and stores the listing into the
stat cache exactly when the read succeeds. -/
theorem C8_loadChildren (wfs : WFS) (c : StatCache)
    (hc : wfs.statCache = some c) (now : Nat) (name : GoStr) (e : Err)
    (infos : List FileInfoM) :
    loadChildren wfs now name (Except.error e) = (([], Option.none), wfs) ∧
    loadChildren wfs now name (Except.ok infos) =
      ((infos, Option.none), ⟨some (cacheSet now name (CacheVal.listing infos) c)⟩) := by
  constructor
  · rfl
  · simp [loadChildren, hc]

theorem C8_loadChildren_witness :
    loadChildren ⟨some ⟨5, []⟩⟩ 0 ['d'] (Except.error (Err.statusError 500)) =
      (([], Option.none), ⟨some ⟨5, []⟩⟩) :=
  (C8_loadChildren ⟨some ⟨5, []⟩⟩ ⟨5, []⟩ rfl 0 ['d'] (Err.statusError 500) []).1

/-- C9: every per-identity record built by `SetShares` holds at least
one share (a record is created only when an identity owns a share in
the applied set), so the supervision loop's `s.shares[0].As` in `run`
is total on every record. -/
theorem C9_userServer_nonempty (shares : List ShareE) (ident : GoStr)
    (ss : List ShareE) (exe : GoStr)
    (hmem : (ident, ss) ∈ setSharesGroup shares) :
    ss ≠ [] ∧ (runArgs exe ss).isSome = true := by
  have h : ss ≠ [] := setSharesGroup_aux shares [] (by simp) (ident, ss) hmem
  refine ⟨h, ?_⟩
  cases ss with
  | nil => exact absurd rfl h
  | cons s0 rest => rfl

theorem C9_userServer_nonempty_witness :
    ([(⟨['s'], ['p'], ['u']⟩ : ShareE)] : List ShareE) ≠ [] ∧
    (runArgs ['e'] [(⟨['s'], ['p'], ['u']⟩ : ShareE)]).isSome = true :=
  C9_userServer_nonempty [⟨['s'], ['p'], ['u']⟩] ['u'] [⟨['s'], ['p'], ['u']⟩]
    ['e'] (by decide)

/-- C10: `Split` always yields at least one segment (`pathToChild`'s
first-segment access never panics, for any composite state and any
path), the empty path yields the single empty segment, and a path made
only of separator characters resolves to the empty-string child name
and fails with not-exist when no child has the empty name. -/
theorem C10_pathToChild_total {F : Type} (cfs : CFS F) (p q : GoStr)
    (hsep : ∀ x ∈ p, x = sep)
    (hempty : mapLookup [] cfs.childrenMap = Option.none) :
    (pathToChild cfs q).isSome = true ∧
    Split [] = [[]] ∧
    pathToChild cfs p = some ⟨p, false, Option.none, some Err.notExist⟩ := by
  refine ⟨?_, by decide, ?_⟩
  · unfold pathToChild
    cases h : Split q with
    | nil => exact absurd h (Split_ne_nil q)
    | cons p0 rest =>
      cases hm : mapLookup p0 cfs.childrenMap <;> cases rest <;> simp [hm]
  · have ht : trimChar sep p = [] := trimChar_all_eq sep p hsep
    have hs : Split p = [[]] := by
      unfold Split
      rw [ht]
      rfl
    simp only [pathToChild, hs]
    simp [hempty]

theorem C10_pathToChild_total_witness :
    (pathToChild (newCFS ([] : List (ChildE Unit))) ['x']).isSome = true ∧
    Split [] = [[]] ∧
    pathToChild (newCFS ([] : List (ChildE Unit))) ['/', '/'] =
      some ⟨['/', '/'], false, Option.none, some Err.notExist⟩ :=
  C10_pathToChild_total (newCFS []) ['/', '/'] ['x'] (by decide) (by decide)

end Tailfs
